import Mathlib

/-!
Shallow embedding of the Horton repository's core: the `horton/grid.py`
module (`Grid`, `Torus`, `GridSliceProxy`) and the `conway.py` module
(its own `Grid`/`Torus` variant plus `get_at`, `neighbours`, `step` and
`generations`).  Cells are modelled as integers, coordinates as integers
(Python ints), dimensions as naturals.  Python exceptions are modelled
with `Except PyErr` (grid.py) and `Option` (conway.py, where only
success/failure matters to the claims).  Python's `%` on a positive
modulus agrees with `Int.emod`; Python tuple comparison is lexicographic
and is modelled by `pairLt`.
-/

set_option autoImplicit false

deriving instance DecidableEq for Except

/-- Exception kinds raised by the Python code under scrutiny. -/
inductive PyErr where
  | keyError
  | indexError
  | assertionError
  | valueError
  | zeroDivisionError
deriving DecidableEq, Repr

namespace Horton

/-- The `Grid` class of `horton/grid.py`: `width`, `height` and the flat
backing list `self._grid`.  A `Torus` carries the same data; its
overridden methods are modelled as the `Torus.*` functions below. -/
structure Grid where
  width : Nat
  height : Nat
  grid : List Int
deriving DecidableEq, Repr

/-- Well-formedness: the backing list has exactly `width * height` cells,
as every constructor of the Python class guarantees. -/
def Grid.wf (g : Grid) : Prop := g.grid.length = g.width * g.height

instance (g : Grid) : Decidable g.wf := by unfold Grid.wf; infer_instance

/-- `Grid._is_valid_location` from `horton/grid.py`. -/
def Grid.isValidLocation (g : Grid) (x y : Int) : Bool :=
  if x < 0 ∨ x > (g.width : Int) - 1 then false
  else if y < 0 ∨ y > (g.height : Int) - 1 then false
  else true

/-- `Grid.__get_coordinate__`: bounds check, then index `y * width + x`;
a stray `IndexError` is re-raised as `KeyError`. -/
def Grid.getCoordinate (g : Grid) (x y : Int) : Except PyErr Int :=
  if g.isValidLocation x y then
    match g.grid[(y * (g.width : Int) + x).toNat]? with
    | some v => .ok v
    | none => .error .keyError
  else .error .keyError

/-- `Grid.__setitem__`: bounds check, then write at `y * width + x`;
a stray `IndexError` is re-raised as `KeyError`. -/
def Grid.setItem (g : Grid) (x y : Int) (v : Int) : Except PyErr Grid :=
  if g.isValidLocation x y then
    let i := (y * (g.width : Int) + x).toNat
    if i < g.grid.length then .ok { g with grid := g.grid.set i v }
    else .error .keyError
  else .error .keyError

/-- `Grid.get(x, y, default)`: try `__getitem__`, catching `KeyError`
only (any other exception would propagate). -/
def Grid.get (g : Grid) (x y : Int) (default : Int) : Except PyErr Int :=
  match g.getCoordinate x y with
  | .error .keyError => .ok default
  | r => r

/-- `Grid.__eq__`: after the `isinstance` assertion (enforced here by
typing), compares only the backing lists — dimensions are not compared. -/
def Grid.eqOp (g h : Grid) : Bool := g.grid == h.grid

/-- The loop body of `Grid.__add__`: `for idx, val in enumerate(self._grid):
g._grid[idx] = val + other._grid[idx]`, with `IndexError` on either
out-of-range subscript. -/
def addLoop (others : List Int) : List Int → Nat → List Int → Except PyErr (List Int)
  | [], _, base => .ok base
  | v :: vs, i, base =>
    match others[i]? with
    | none => .error .indexError
    | some w =>
      if i < base.length then addLoop others vs (i + 1) (base.set i (v + w))
      else .error .indexError

/-- `Grid.__add__`: asserts equal dimensions, builds a fresh zero grid of
`self`'s dimensions, then runs the addition loop. -/
def Grid.addOp (g h : Grid) : Except PyErr Grid :=
  if g.width = h.width ∧ g.height = h.height then
    (addLoop h.grid g.grid 0 (List.replicate (g.width * g.height) 0)).map
      (fun l => { width := g.width, height := g.height, grid := l })
  else .error .assertionError

/-- `Torus.__getitem__` from `horton/grid.py`: wraps both coordinates by
`%` (Python raises `ZeroDivisionError` on a zero modulus) and then —
unlike `Grid` — indexes the storage at `y * height + x`, with no bounds
check and no `IndexError` handler. -/
def Torus.getItem (g : Grid) (x y : Int) : Except PyErr Int :=
  if g.width = 0 ∨ g.height = 0 then .error .zeroDivisionError
  else
    let x' := x % (g.width : Int)
    let y' := y % (g.height : Int)
    match g.grid[(y' * (g.height : Int) + x').toNat]? with
    | some v => .ok v
    | none => .error .indexError

/-- `Torus.__setitem__` from `horton/grid.py`: same wrapped addressing,
writing at `y * height + x`. -/
def Torus.setItem (g : Grid) (x y : Int) (v : Int) : Except PyErr Grid :=
  if g.width = 0 ∨ g.height = 0 then .error .zeroDivisionError
  else
    let x' := x % (g.width : Int)
    let y' := y % (g.height : Int)
    let i := (y' * (g.height : Int) + x').toNat
    if i < g.grid.length then .ok { g with grid := g.grid.set i v }
    else .error .indexError

/-- Python tuple comparison `p < q` on pairs: lexicographic. -/
def pairLt (p q : Int × Int) : Bool :=
  p.1 < q.1 ∨ (p.1 = q.1 ∧ p.2 < q.2)

/-- The four corner bounds held by `GridSliceProxy` (`x1,y1` top-left,
`x2,y2` bottom-right); the weak parent reference is passed explicitly
to each access. -/
structure GridSliceProxy where
  x1 : Int
  y1 : Int
  x2 : Int
  y2 : Int
deriving DecidableEq, Repr

/-- `GridSliceProxy.__getitem__`: translates the local coordinate, guards
with Python's lexicographic tuple comparisons `(dx, dy) > (x2, y2)` and
`target < (0, 0)`, then delegates to the parent's `__get_coordinate__`. -/
def GridSliceProxy.getItem (p : GridSliceProxy) (g : Grid) (tx ty : Int) : Except PyErr Int :=
  let dx := p.x1 + tx
  let dy := p.y1 + ty
  if pairLt (p.x2, p.y2) (dx, dy) ∨ pairLt (tx, ty) (0, 0) then .error .keyError
  else g.getCoordinate dx dy

/-- `GridSliceProxy.__setitem__`: same guard, then delegates to the
parent's `__setitem__`. -/
def GridSliceProxy.setItem (p : GridSliceProxy) (g : Grid) (tx ty : Int) (v : Int) :
    Except PyErr Grid :=
  let dx := p.x1 + tx
  let dy := p.y1 + ty
  if pairLt (p.x2, p.y2) (dx, dy) ∨ pairLt (tx, ty) (0, 0) then .error .keyError
  else g.setItem dx dy v

end Horton

namespace Conway

/-- The `Coordinate` named tuple of `conway.py`. -/
structure Coordinate where
  x : Int
  y : Int
deriving DecidableEq, Repr

/-- The `Grid` class of `conway.py` (a distinct class from the one in
`horton/grid.py`); same data, but note its indexing formula below. -/
structure Grid where
  width : Nat
  height : Nat
  grid : List Int
deriving DecidableEq, Repr

/-- Well-formedness of the backing list, as guaranteed by `Grid.__init__`
and asserted by `Grid.from_array`. -/
def Grid.wf (g : Grid) : Prop := g.grid.length = g.width * g.height

instance (g : Grid) : Decidable g.wf := by unfold Grid.wf; infer_instance

/-- `Grid._is_valid_location` from `conway.py`. -/
def Grid.isValidLocation (g : Grid) (x y : Int) : Bool :=
  if x < 0 ∨ x > (g.width : Int) - 1 then false
  else if y < 0 ∨ y > (g.height : Int) - 1 then false
  else true

/-- `Grid.__getitem__` from `conway.py`: bounds check, then — note —
index `y * height + x` (sic, not `y * width + x`); failure is a
`KeyError`, modelled as `none`. -/
def Grid.getItem (g : Grid) (x y : Int) : Option Int :=
  if g.isValidLocation x y then g.grid[(y * (g.height : Int) + x).toNat]?
  else none

/-- `Grid.__setitem__` from `conway.py`: bounds check, write at
`y * height + x` (sic). -/
def Grid.setItem (g : Grid) (x y : Int) (v : Int) : Option Grid :=
  if g.isValidLocation x y then
    let i := (y * (g.height : Int) + x).toNat
    if i < g.grid.length then some { g with grid := g.grid.set i v }
    else none
  else none

/-- `Grid.copy`: a fresh grid with a deep copy of the backing list
(value-identical in this embedding). -/
def Grid.copy (g : Grid) : Grid :=
  { width := g.width, height := g.height, grid := g.grid }

/-- `Grid.__eq__` from `conway.py`: backing lists only. -/
def Grid.eqOp (g h : Grid) : Bool := g.grid == h.grid

/-- `get_at(world, coord)`: wraps both components by `%` before the
lookup (Python raises `ZeroDivisionError` on a zero modulus). -/
def get_at (world : Grid) (c : Coordinate) : Option Int :=
  if world.width = 0 ∨ world.height = 0 then none
  else world.getItem (c.x % (world.width : Int)) (c.y % (world.height : Int))

/-- The row-major coordinate enumeration of `coordinates(world)`. -/
def Grid.coordList (g : Grid) : List Coordinate :=
  (List.range g.height).flatMap
    (fun (y : Nat) => (List.range g.width).map (fun (x : Nat) => ⟨(x : Int), (y : Int)⟩))

/-- The eight neighbour coordinates probed by `neighbours`, in source
order. -/
def neighbourOffsets (c : Coordinate) : List Coordinate :=
  [⟨c.x - 1, c.y⟩, ⟨c.x + 1, c.y⟩, ⟨c.x, c.y - 1⟩, ⟨c.x, c.y + 1⟩,
   ⟨c.x - 1, c.y - 1⟩, ⟨c.x + 1, c.y - 1⟩, ⟨c.x - 1, c.y + 1⟩, ⟨c.x + 1, c.y + 1⟩]

/-- The eager `map(partial(get_at, world), [...])` of `neighbours`: a
`KeyError` from any lookup propagates.  (The subsequent `filter` against
`None` cell values is the identity here, since cells are integers.) -/
def lookupAll (world : Grid) : List Coordinate → Option (List Int)
  | [] => some []
  | c :: cs => do
      let v ← get_at world c
      let vs ← lookupAll world cs
      some (v :: vs)

/-- `neighbours(world, coord)`: the sum of the eight looked-up cell
values. -/
def neighbours (world : Grid) (c : Coordinate) : Option Int :=
  (lookupAll world (neighbourOffsets c)).map (fun vs => vs.sum)

/-- The new cell value written by the rule block of `step`: the three
`if`s in the live branch are mutually exclusive and exhaustive, so they
amount to this conditional chain. -/
def lifeRule (cell : Int) (ns : Int) : Int :=
  if cell = 1 then
    if ns < 2 then 0
    else if ns = 2 ∨ ns = 3 then 1
    else 0
  else
    if ns = 3 then 1 else 0

/-- The loop of `step`: for each coordinate (with its cell as yielded by
`coordinates(world)`), compute `neighbours` and write the new value into
the accumulating copy. -/
def stepGo (world : Grid) : List Coordinate → Grid → Option Grid
  | [], acc => some acc
  | c :: cs, acc => do
      let cell ← world.getItem c.x c.y
      let ns ← neighbours world c
      let acc' ← acc.setItem c.x c.y (lifeRule cell ns)
      stepGo world cs acc'

/-- `step(world)`: copy the world, then apply the rule at every
coordinate. -/
def step (world : Grid) : Option Grid :=
  stepGo world world.coordList (Grid.copy world)

/-- The generator body of `generations`: when fully consumed it runs
`world = step(world)` once after every yield, including the last, so a
failing trailing `step` also fails the traversal. -/
def generationsGo : Nat → Nat → Grid → Option (List (Nat × Grid))
  | 0, _, _ => some []
  | n + 1, i, world => do
      let world' ← step world
      let rest ← generationsGo n (i + 1) world'
      some ((i, world) :: rest)

/-- `generations(num, starting_world)`: copies the seed first, then
yields `(index, world)` pairs. -/
def generations (num : Nat) (starting_world : Grid) : Option (List (Nat × Grid)) :=
  generationsGo num 0 (Grid.copy starting_world)

end Conway

/-! ### Concrete inputs used by the claims -/

/-- The horizontal 3-cell line `[[0,0,0],[1,1,1],[0,0,0]]` (rows top to
bottom, row-major storage). -/
def blinkerH : Conway.Grid := ⟨3, 3, [0, 0, 0, 1, 1, 1, 0, 0, 0]⟩

/-- The vertical 3-cell line `[[0,1,0],[0,1,0],[0,1,0]]`. -/
def blinkerV : Conway.Grid := ⟨3, 3, [0, 1, 0, 0, 1, 0, 0, 1, 0]⟩

/-- The fully live 3×3 grid. -/
def allOnes3 : Conway.Grid := ⟨3, 3, [1, 1, 1, 1, 1, 1, 1, 1, 1]⟩

/-- The fully dead 3×3 grid. -/
def allZeros3 : Conway.Grid := ⟨3, 3, [0, 0, 0, 0, 0, 0, 0, 0, 0]⟩

/-- A 3×3 grid holding the value `2` at coordinate `(1, 0)`. -/
def cgTwo : Conway.Grid := ⟨3, 3, [0, 2, 0, 0, 0, 0, 0, 0, 0]⟩

/-- A non-square (3 wide, 2 high) `conway.py` grid holding `7` at the
last storage slot — the slot no coordinate reaches under `y*height+x`
addressing. -/
def gRect7 : Conway.Grid := ⟨3, 2, [0, 0, 0, 0, 0, 7]⟩

/-- A 2×3 all-zero `horton` grid. -/
def hgA : Horton.Grid := ⟨2, 3, [0, 0, 0, 0, 0, 0]⟩

/-- A 3×2 all-zero `horton` grid: different dimensions from `hgA`, same
backing list. -/
def hgB : Horton.Grid := ⟨3, 2, [0, 0, 0, 0, 0, 0]⟩

/-- `from_array(3, 2, [0,1,2,3,4,5])`: a non-square grid with distinct
cell values. -/
def hgArr : Horton.Grid := ⟨3, 2, [0, 1, 2, 3, 4, 5]⟩

/-- A 5×5 grid holding `77` at coordinate `(2, 0)` and `99` at `(1, 4)` —
both outside the slice rectangle `(1,1)..(3,3)`. -/
def hgSlice : Horton.Grid :=
  ⟨5, 5, [0, 0, 77, 0, 0,
          0, 0, 0, 0, 0,
          0, 0, 0, 0, 0,
          0, 0, 0, 0, 0,
          0, 99, 0, 0, 0]⟩

/-- The slice proxy over `(1,1)..(3,3)`. -/
def proxy13 : Horton.GridSliceProxy := ⟨1, 1, 3, 3⟩

/-- A 2×2 torus with distinct cell values. -/
def t22 : Horton.Grid := ⟨2, 2, [1, 2, 3, 4]⟩

/-- A 2×2 grid used as the left operand of an addition. -/
def a22 : Horton.Grid := ⟨2, 2, [1, 2, 3, 4]⟩

/-- A 2×2 grid used as the right operand of an addition. -/
def b22 : Horton.Grid := ⟨2, 2, [10, 20, 30, 40]⟩

/-! ### Claim theorems: concrete counterexamples and code evaluations -/

/-- C1, counterexample: stepping the horizontal 3-cell line does NOT
give the vertical line, and stepping twice does NOT return the original
grid — the wrap-around neighbour counting on a 3×3 world makes the full
row interact with itself across the edges. -/
theorem c1_blinker_counterexample :
    Conway.step blinkerH ≠ some blinkerV ∧
    (Conway.step blinkerH).bind Conway.step ≠ some blinkerH := by decide

/-- C1, amended: on the 3×3 world the horizontal line steps to the fully
live grid, and stepping twice gives the fully dead grid (exactly as the
doctest of `step` in `conway.py` records). -/
theorem c1_blinker_amended :
    Conway.step blinkerH = some allOnes3 ∧
    (Conway.step blinkerH).bind Conway.step = some allZeros3 := by decide

/-- C2, counterexample: `neighbours` sums the neighbour cell values
rather than counting the nonzero ones, so on a grid holding a `2` next
to `(1,1)` it returns `2` while the count of nonzero neighbours is `1`. -/
theorem c2_count_counterexample :
    Conway.neighbours cgTwo ⟨1, 1⟩ = some 2 ∧
    (Conway.lookupAll cgTwo (Conway.neighbourOffsets ⟨1, 1⟩)).map
      (fun vs => ((vs.countP (fun v => v != 0) : Nat) : Int)) = some 1 ∧
    Conway.neighbours cgTwo ⟨1, 1⟩ ≠
      (Conway.lookupAll cgTwo (Conway.neighbourOffsets ⟨1, 1⟩)).map
        (fun vs => ((vs.countP (fun v => v != 0) : Nat) : Int)) := by decide

/-- C3, counterexample: `__eq__` compares only the backing lists, so a
2×3 and a 3×2 all-zero grid compare equal although their widths differ. -/
theorem c3_dims_counterexample :
    Horton.Grid.eqOp hgA hgB = true ∧ hgA.width ≠ hgB.width := by decide

/-- C4, code evaluated at the failing input: on the non-square grid
`from_array(3, 2, [0,1,2,3,4,5])` at in-range coordinate `(0, 1)`, the
`Grid` accessor reads storage slot `y*width+x = 3` (value `3`) while the
`Torus` accessor reads slot `y*height+x = 2` (value `2`). -/
theorem c4_torus_indexing_bug :
    Horton.Grid.getCoordinate hgArr 0 1 = .ok 3 ∧
    Horton.Torus.getItem hgArr 0 1 = .ok 2 := by decide

/-- C5, code evaluated at the failing input: through a `(1,1)..(3,3)`
slice of a 5×5 grid, the local read `(0, 3)` silently returns the parent
cell `(1, 4)` outside the slice, the local read `(1, -1)` (negative
component) silently returns parent cell `(2, 0)`, and the local write at
`(0, 3)` silently mutates parent cell `(1, 4)` — Python's lexicographic
tuple comparison lets all three through. -/
theorem c5_slice_bounds_bug :
    Horton.GridSliceProxy.getItem proxy13 hgSlice 0 3 = .ok 99 ∧
    Horton.GridSliceProxy.getItem proxy13 hgSlice 1 (-1) = .ok 77 ∧
    (Horton.GridSliceProxy.setItem proxy13 hgSlice 0 3 55).map
      (fun r => r.getCoordinate 1 4) = .ok (.ok 55) := by decide

/-- C10, counterexample: on the non-square 3×2 grid whose last storage
slot holds `7`, `step` succeeds and returns the very same grid — the
`y*height+x` write addressing never touches slot 5, so the output grid
still contains the cell value `7`, which is neither 0 nor 1. -/
theorem c10_nonsquare_counterexample :
    Conway.step gRect7 = some gRect7 ∧
    (7 : Int) ∈ gRect7.grid ∧ ¬ ((7 : Int) = 0 ∨ (7 : Int) = 1) := by decide

/-! ### Shared helper lemmas -/

/-- A linear index `y * m + x` formed from a coordinate that is in range
for an `m`-column, `n`-row layout lands inside an `n * m`-cell store. -/
theorem linIdx_toNat_lt {x y : Int} {m n : Nat} (hx0 : 0 ≤ x) (hxm : x < (m : Int))
    (hy0 : 0 ≤ y) (hyn : y < (n : Int)) : (y * (m : Int) + x).toNat < n * m := by
  have hmul : y * (m : Int) ≤ ((n : Int) - 1) * m := by
    have : y ≤ (n : Int) - 1 := by omega
    exact mul_le_mul_of_nonneg_right this (by positivity)
  have hlt : y * (m : Int) + x < ((n * m : Nat) : Int) := by
    push_cast
    nlinarith
  have hnn : 0 ≤ y * (m : Int) := mul_nonneg hy0 (by positivity)
  omega

/-- Splitting a natural `i` as `(i / w) * w + i % w` (cast through `Int`)
round-trips to `i`. -/
theorem divMod_toNat (i w : Nat) :
    ((((i / w : Nat) : Int)) * (w : Int) + ((i % w : Nat) : Int)).toNat = i := by
  have h2 : i / w * w + i % w = i := by
    rw [Nat.mul_comm (i / w) w]
    exact Nat.div_add_mod i w
  calc ((((i / w : Nat) : Int)) * (w : Int) + ((i % w : Nat) : Int)).toNat
      = (((i / w * w + i % w : Nat) : Int)).toNat := by push_cast; ring_nf
    _ = i / w * w + i % w := Int.toNat_natCast _
    _ = i := h2

namespace Horton

/-- Characterization of `Grid._is_valid_location`. -/
theorem Grid.isValid_iff (g : Grid) (x y : Int) :
    g.isValidLocation x y = true ↔
      0 ≤ x ∧ x < (g.width : Int) ∧ 0 ≤ y ∧ y < (g.height : Int) := by
  unfold Grid.isValidLocation
  split_ifs with h1 h2 <;> simp <;> omega

/-- Characterization of a successful `__get_coordinate__`. -/
theorem Grid.getCoordinate_ok_iff (g : Grid) (x y v : Int) :
    g.getCoordinate x y = .ok v ↔
      g.isValidLocation x y = true ∧
        g.grid[(y * (g.width : Int) + x).toNat]? = some v := by
  unfold Grid.getCoordinate
  split_ifs with hval
  · cases hq : g.grid[(y * (g.width : Int) + x).toNat]? <;> simp [hq, hval]
  · simp [hval]

end Horton

namespace Conway

/-- Characterization of `Grid._is_valid_location` (`conway.py`). -/
theorem Grid.validLocation_iff (g : Grid) (x y : Int) :
    g.isValidLocation x y = true ↔
      0 ≤ x ∧ x < (g.width : Int) ∧ 0 ≤ y ∧ y < (g.height : Int) := by
  unfold Grid.isValidLocation
  split_ifs with h1 h2 <;> simp <;> omega

/-- `Grid.copy` is the identity on the modelled value. -/
theorem Grid.copy_eq (g : Grid) : Grid.copy g = g := rfl

end Conway

/-- C6: for every seed, as soon as the three `step`s forced by a full
traversal of the generator succeed, `generations(3, seed)` yields exactly
the pairs `(0, seed-copy)`, `(1, step(seed))`, `(2, step(step(seed)))`
(in the embedding the deep copy is value-identical to the seed, so the
first component is `seed` itself), and the copied seed compares equal to
the seed; the seed is never mutated — `generations` copies it first and
`step` writes only into a fresh copy. -/
theorem c6_generations_first_three (seed g1 g2 g3 : Conway.Grid)
    (h1 : Conway.step seed = some g1) (h2 : Conway.step g1 = some g2)
    (h3 : Conway.step g2 = some g3) :
    Conway.generations 3 seed = some [(0, seed), (1, g1), (2, g2)] ∧
    Conway.Grid.eqOp (Conway.Grid.copy seed) seed = true := by
  constructor
  · show Conway.generationsGo 3 0 (Conway.Grid.copy seed) = _
    rw [Conway.Grid.copy_eq]
    simp [Conway.generationsGo, h1, h2, h3]
  · simp [Conway.Grid.eqOp, Conway.Grid.copy_eq]

/-- C6 witness: the blinker seed runs three generations. -/
theorem c6_generations_witness :
    Conway.generations 3 blinkerH = some [(0, blinkerH), (1, allOnes3), (2, allZeros3)] ∧
    Conway.Grid.eqOp (Conway.Grid.copy blinkerH) blinkerH = true :=
  c6_generations_first_three blinkerH allOnes3 allZeros3 allZeros3
    (by decide) (by decide) (by decide)

/-- C7: torus reads are invariant under shifting `x` by any integer
multiple of the width, and the wrapped coordinates always land in
`[0, width)` and `[0, height)`, negative inputs included. -/
theorem c7_torus_wraparound (g : Horton.Grid) (x y k : Int)
    (hx0 : 0 ≤ x) (hxw : x < (g.width : Int)) (hy0 : 0 ≤ y) (hyh : y < (g.height : Int)) :
    Horton.Torus.getItem g (x + k * (g.width : Int)) y = Horton.Torus.getItem g x y ∧
    0 ≤ (x + k * (g.width : Int)) % (g.width : Int) ∧
    (x + k * (g.width : Int)) % (g.width : Int) < (g.width : Int) ∧
    0 ≤ y % (g.height : Int) ∧ y % (g.height : Int) < (g.height : Int) := by
  have hw : (0 : Int) < (g.width : Int) := lt_of_le_of_lt hx0 hxw
  have hh : (0 : Int) < (g.height : Int) := lt_of_le_of_lt hy0 hyh
  have hmod : (x + k * (g.width : Int)) % (g.width : Int) = x % (g.width : Int) :=
    Int.add_mul_emod_self
  refine ⟨?_, ?_, ?_, ?_, ?_⟩
  · unfold Horton.Torus.getItem
    rw [hmod]
  · exact Int.emod_nonneg _ (by omega)
  · exact Int.emod_lt_of_pos _ hw
  · exact Int.emod_nonneg _ (by omega)
  · exact Int.emod_lt_of_pos _ hh

/-- C7 witness: on the 2×2 torus `[1,2,3,4]`, shifting `x = 1` by
`-3 * width` reads the same cell. -/
theorem c7_torus_wraparound_witness :
    Horton.Torus.getItem t22 (1 + (-3) * (t22.width : Int)) 0 = Horton.Torus.getItem t22 1 0 ∧
    0 ≤ (1 + (-3) * (t22.width : Int)) % (t22.width : Int) ∧
    (1 + (-3) * (t22.width : Int)) % (t22.width : Int) < (t22.width : Int) ∧
    0 ≤ (0 : Int) % (t22.height : Int) ∧ (0 : Int) % (t22.height : Int) < (t22.height : Int) :=
  c7_torus_wraparound t22 1 0 (-3) (by decide) (by decide) (by decide) (by decide)

/-- C9: `get` (the get-or-default accessor) never fails — it returns
`ok` on every grid and every coordinate; out-of-range coordinates give
the supplied default, and on a well-formed grid an in-range coordinate
gives the stored cell value. -/
theorem c9_get_or_default_total (g : Horton.Grid) (x y d : Int) :
    (∃ v, g.get x y d = .ok v) ∧
    (g.isValidLocation x y = false → g.get x y d = .ok d) ∧
    (g.isValidLocation x y = true → g.wf →
      ∃ v, g.get x y d = .ok v ∧
        g.grid[(y * (g.width : Int) + x).toNat]? = some v) := by
  refine ⟨?_, ?_, ?_⟩
  · by_cases hval : g.isValidLocation x y
    · cases hq : g.grid[(y * (g.width : Int) + x).toNat]? with
      | some v => exact ⟨v, by simp [Horton.Grid.get, Horton.Grid.getCoordinate, hval, hq]⟩
      | none => exact ⟨d, by simp [Horton.Grid.get, Horton.Grid.getCoordinate, hval, hq]⟩
    · exact ⟨d, by simp [Horton.Grid.get, Horton.Grid.getCoordinate, hval]⟩
  · intro hval
    simp [Horton.Grid.get, Horton.Grid.getCoordinate, hval]
  · intro hval hwf
    obtain ⟨hx0, hxw, hy0, hyh⟩ := (Horton.Grid.isValid_iff g x y).mp hval
    have hidx : (y * (g.width : Int) + x).toNat < g.grid.length := by
      rw [hwf, Nat.mul_comm]
      exact linIdx_toNat_lt hx0 hxw hy0 hyh
    refine ⟨g.grid[(y * (g.width : Int) + x).toNat], ?_, by simp [hidx]⟩
    simp [Horton.Grid.get, Horton.Grid.getCoordinate, hval, List.getElem?_eq_getElem hidx]

/-- C9 witness: on `from_array(3, 2, [0,1,2,3,4,5])` with default 42,
`get` succeeds everywhere, returns 42 at the out-of-range `(10, 10)`,
and the stored value at the in-range `(0, 1)`. -/
theorem c9_get_or_default_witness :
    (∃ v, Horton.Grid.get hgArr 0 1 42 = .ok v) ∧
    Horton.Grid.get hgArr 10 10 42 = .ok 42 ∧
    (∃ v, Horton.Grid.get hgArr 0 1 42 = .ok v ∧
      hgArr.grid[((1 : Int) * (hgArr.width : Int) + 0).toNat]? = some v) :=
  ⟨(c9_get_or_default_total hgArr 0 1 42).1,
   (c9_get_or_default_total hgArr 10 10 42).2.1 (by decide),
   (c9_get_or_default_total hgArr 0 1 42).2.2 (by decide) (by decide)⟩

/-- On a well-formed square grid, `get_at` succeeds at every coordinate
and returns a stored cell: the wrapped coordinate is always in range and
the `y*height+x` index stays below `height*height = width*height`. -/
theorem Conway.get_at_isSome (g : Conway.Grid) (hwf : g.wf) (hsq : g.width = g.height)
    (hpos : 0 < g.width) (c : Conway.Coordinate) :
    ∃ v, Conway.get_at g c = some v ∧ v ∈ g.grid := by
  have hwz : ¬ (g.width = 0 ∨ g.height = 0) := by omega
  have hwpos : (0 : Int) < (g.width : Int) := by exact_mod_cast hpos
  have hhpos : (0 : Int) < (g.height : Int) := by
    have : 0 < g.height := hsq ▸ hpos
    exact_mod_cast this
  set x' := c.x % (g.width : Int) with hx'
  set y' := c.y % (g.height : Int) with hy'
  have hx0 : 0 ≤ x' := Int.emod_nonneg _ (by omega)
  have hxl : x' < (g.width : Int) := Int.emod_lt_of_pos _ hwpos
  have hy0 : 0 ≤ y' := Int.emod_nonneg _ (by omega)
  have hyl : y' < (g.height : Int) := Int.emod_lt_of_pos _ hhpos
  have hval : g.isValidLocation x' y' = true :=
    (Conway.Grid.validLocation_iff g x' y').mpr ⟨hx0, hxl, hy0, hyl⟩
  have hxh : x' < (g.height : Int) := by
    rw [← hsq] at hyl ⊢
    exact hxl
  have hidx : (y' * (g.height : Int) + x').toNat < g.grid.length := by
    rw [hwf, hsq]
    exact linIdx_toNat_lt hx0 hxh hy0 hyl
  refine ⟨g.grid[(y' * (g.height : Int) + x').toNat], ?_, List.getElem_mem hidx⟩
  simp only [Conway.get_at, hwz, if_false, Conway.Grid.getItem, hval, if_true]
  exact List.getElem?_eq_getElem hidx

/-- On a well-formed square grid, the eager neighbour lookup of
`neighbours` succeeds on any coordinate list and returns stored cells. -/
theorem Conway.lookupAll_some (g : Conway.Grid) (hwf : g.wf) (hsq : g.width = g.height)
    (hpos : 0 < g.width) (cs : List Conway.Coordinate) :
    ∃ vs, Conway.lookupAll g cs = some vs ∧ vs.length = cs.length ∧
      ∀ v ∈ vs, v ∈ g.grid := by
  induction cs with
  | nil => exact ⟨[], rfl, rfl, by simp⟩
  | cons c cs ih =>
    obtain ⟨v, hv, hmem⟩ := Conway.get_at_isSome g hwf hsq hpos c
    obtain ⟨vs, hvs, hlen, hall⟩ := ih
    refine ⟨v :: vs, ?_, by simp [hlen], ?_⟩
    · simp [Conway.lookupAll, hv, hvs]
    · intro u hu
      rcases List.mem_cons.mp hu with h | h
      · exact h ▸ hmem
      · exact hall u h

/-- A list of cells that are each 0 or 1 sums to the number of its
nonzero entries. -/
theorem sum_eq_countP_of_zero_or_one (l : List Int) (h01 : ∀ v ∈ l, v = 0 ∨ v = 1) :
    l.sum = ((l.countP (fun v => v != 0) : Nat) : Int) := by
  induction l with
  | nil => simp
  | cons v l ih =>
    have hv := h01 v (by simp)
    have ih' := ih (fun u hu => h01 u (by simp [hu]))
    rcases hv with h | h <;> subst h
    · simp [List.countP_cons, List.sum_cons, ih']
    · simp only [List.countP_cons, List.sum_cons, ih']
      push_cast
      simp only [if_true]
      ring

/-- C2, amended: `neighbours` returns the SUM of the eight wrapped
neighbour cell values, which coincides with the claimed count of nonzero
neighbours exactly when the grid holds only 0/1 cells; here on any
well-formed square 0/1 grid the count form of the claim holds for every
coordinate. -/
theorem c2_neighbours_amended (g : Conway.Grid) (c : Conway.Coordinate)
    (hwf : g.wf) (hsq : g.width = g.height) (hpos : 0 < g.width)
    (h01 : ∀ v ∈ g.grid, v = 0 ∨ v = 1) :
    ∃ vs, Conway.lookupAll g (Conway.neighbourOffsets c) = some vs ∧
      Conway.neighbours g c = some ((vs.countP (fun v => v != 0) : Nat) : Int) := by
  obtain ⟨vs, hvs, _, hall⟩ :=
    Conway.lookupAll_some g hwf hsq hpos (Conway.neighbourOffsets c)
  refine ⟨vs, hvs, ?_⟩
  unfold Conway.neighbours
  rw [hvs]
  simp [sum_eq_countP_of_zero_or_one vs (fun v hv => h01 v (hall v hv))]

/-- C2 witness: the blinker grid at corner `(0, 0)`. -/
theorem c2_neighbours_witness :
    ∃ vs, Conway.lookupAll blinkerH (Conway.neighbourOffsets ⟨0, 0⟩) = some vs ∧
      Conway.neighbours blinkerH ⟨0, 0⟩ = some ((vs.countP (fun v => v != 0) : Nat) : Int) :=
  c2_neighbours_amended blinkerH ⟨0, 0⟩ (by decide) rfl (by decide) (by decide)

/-- C3, amended: `__eq__` compares only the backing lists, so it does not
test dimensions; but for two well-formed grids OF EQUAL dimensions it is
true exactly when every in-range coordinate holds equal cell values.
(The counterexample shows the dimension clause of the original claim
fails for equal-length storage of different shapes; comparison against a
non-Grid operand is excluded by the `isinstance` assertion, rendered here
by typing.) -/
theorem c3_eq_amended (g h : Horton.Grid) (hw : g.width = h.width) (hh : g.height = h.height)
    (hgwf : g.wf) (hhwf : h.wf) :
    (Horton.Grid.eqOp g h = true ↔
      ∀ x y, g.isValidLocation x y = true →
        g.getCoordinate x y = h.getCoordinate x y) := by
  unfold Horton.Grid.eqOp
  rw [beq_iff_eq]
  constructor
  · intro hgr x y _
    simp only [Horton.Grid.getCoordinate, Horton.Grid.isValidLocation, hgr, hw, hh]
  · intro hpt
    have hlg : g.grid.length = g.width * g.height := hgwf
    have hlh : h.grid.length = g.width * g.height := by rw [hhwf, ← hw, ← hh]
    by_cases hz : g.width * g.height = 0
    · have hg0 : g.grid = [] := List.length_eq_zero.mp (by omega)
      have h0 : h.grid = [] := List.length_eq_zero.mp (by omega)
      rw [hg0, h0]
    · obtain ⟨hw0, hh0⟩ := Nat.mul_ne_zero_iff.mp hz
      apply List.ext_getElem?
      intro i
      by_cases hi : i < g.width * g.height
      · have hxb : i % g.width < g.width := Nat.mod_lt _ (Nat.pos_of_ne_zero hw0)
        have hyb : i / g.width < g.height :=
          (Nat.div_lt_iff_lt_mul (Nat.pos_of_ne_zero hw0)).mpr
            (by rw [Nat.mul_comm]; exact hi)
        set x : Int := ((i % g.width : Nat) : Int) with hxdef
        set y : Int := ((i / g.width : Nat) : Int) with hydef
        have hval : g.isValidLocation x y = true :=
          (Horton.Grid.isValid_iff g x y).mpr
            ⟨by rw [hxdef]; positivity, by rw [hxdef]; exact_mod_cast hxb,
             by rw [hydef]; positivity, by rw [hydef]; exact_mod_cast hyb⟩
        have hvalh : h.isValidLocation x y = true := by
          rw [Horton.Grid.isValid_iff] at hval ⊢
          rw [← hw, ← hh]
          exact hval
        have hidx : (y * (g.width : Int) + x).toNat = i := by
          rw [hxdef, hydef]
          exact divMod_toNat i g.width
        have hgl : i < g.grid.length := by omega
        have hhl : i < h.grid.length := by omega
        have hg_ok : g.getCoordinate x y = .ok (g.grid[i]) := by
          rw [Horton.Grid.getCoordinate_ok_iff]
          exact ⟨hval, by rw [hidx]; exact List.getElem?_eq_getElem hgl⟩
        have hh_ok : h.getCoordinate x y = .ok (h.grid[i]) := by
          rw [Horton.Grid.getCoordinate_ok_iff]
          refine ⟨hvalh, ?_⟩
          have hidx2 : (y * (h.width : Int) + x).toNat = i := by
            rw [← hw]
            exact hidx
          rw [hidx2]
          exact List.getElem?_eq_getElem hhl
        have hcell : g.grid[i] = h.grid[i] := by
          have heq := hpt x y hval
          rw [hg_ok, hh_ok] at heq
          exact Except.ok.inj heq
        rw [List.getElem?_eq_getElem hgl, List.getElem?_eq_getElem hhl, hcell]
      · rw [List.getElem?_eq_none (by omega), List.getElem?_eq_none (by omega)]

/-- C3 witness: a well-formed 2×3 grid compared with itself. -/
theorem c3_eq_amended_witness :
    (Horton.Grid.eqOp hgA hgA = true ↔
      ∀ x y, hgA.isValidLocation x y = true →
        Horton.Grid.getCoordinate hgA x y = Horton.Grid.getCoordinate hgA x y) :=
  c3_eq_amended hgA hgA rfl rfl (by decide) (by decide)

/-- Behaviour of the `__add__` loop: when both lists are long enough it
succeeds, leaves untouched positions of the base list alone, and stores
the pairwise sum at every traversed position. -/
theorem addLoop_spec (others : List Int) :
    ∀ (vs : List Int) (i : Nat) (base : List Int),
      i + vs.length ≤ base.length → i + vs.length ≤ others.length →
      ∃ res, Horton.addLoop others vs i base = .ok res ∧ res.length = base.length ∧
        (∀ j, (j < i ∨ i + vs.length ≤ j) → res[j]? = base[j]?) ∧
        (∀ j v w, i ≤ j → j < i + vs.length → vs[j - i]? = some v →
          others[j]? = some w → res[j]? = some (v + w)) := by
  intro vs
  induction vs with
  | nil =>
    intro i base h1 h2
    exact ⟨base, rfl, rfl, fun j _ => rfl,
      fun j v w hj1 hj2 _ _ => absurd hj2 (by simp; omega)⟩
  | cons v vs ih =>
    intro i base h1 h2
    have hio : i < others.length := by simp at h2; omega
    have hib : i < base.length := by simp at h1; omega
    have hoth : others[i]? = some others[i] := List.getElem?_eq_getElem hio
    obtain ⟨res, hres, hlen, houter, hinner⟩ :=
      ih (i + 1) (base.set i (v + others[i]))
        (by simp at h1 ⊢; omega) (by simp at h2 ⊢; omega)
    refine ⟨res, ?_, by rw [hlen]; simp, ?_, ?_⟩
    · show Horton.addLoop others (v :: vs) i base = .ok res
      simp only [Horton.addLoop, hoth]
      rw [if_pos hib]
      exact hres
    · intro j hj
      have hjne : i ≠ j := by simp at hj; omega
      have hpres : res[j]? = (base.set i (v + others[i]))[j]? :=
        houter j (by simp at hj ⊢; omega)
      rw [hpres, List.getElem?_set_ne hjne]
    · intro j u w hj1 hj2 hv hwj
      by_cases hji : j = i
      · subst hji
        have hu : v = u := by simpa using hv
        have hwv : w = others[j] := by
          rw [hoth] at hwj
          exact (Option.some.inj hwj).symm
        have hpres : res[j]? = (base.set j (v + others[j]))[j]? :=
          houter j (Or.inl (by omega))
        rw [hpres, List.getElem?_set_self hib, hu, hwv]
      · have hvv : vs[j - (i + 1)]? = some u := by
          have hsplit : j - i = (j - (i + 1)) + 1 := by omega
          rw [hsplit] at hv
          simpa using hv
        exact hinner j u w (by omega) (by simp at hj2 ⊢; omega) hvv hwj

/-- C8: on well-formed grids of equal dimensions, `__add__` succeeds and
the result holds the componentwise sum at every in-range coordinate
(inputs are untouched: the loop writes only into the freshly built
grid); on grids of different dimensions it fails with the dimension
assertion. -/
theorem c8_add_componentwise (g h : Horton.Grid) :
    (g.width = h.width → g.height = h.height → g.wf → h.wf →
      ∃ r, Horton.Grid.addOp g h = .ok r ∧ r.width = g.width ∧ r.height = g.height ∧
        ∀ x y a b, g.getCoordinate x y = .ok a → h.getCoordinate x y = .ok b →
          r.getCoordinate x y = .ok (a + b)) ∧
    ((g.width ≠ h.width ∨ g.height ≠ h.height) →
      Horton.Grid.addOp g h = .error .assertionError) := by
  constructor
  · intro hw hh hgwf hhwf
    have hgl : g.grid.length = g.width * g.height := hgwf
    have hhl : h.grid.length = g.width * g.height := by rw [hhwf, ← hw, ← hh]
    obtain ⟨res, hres, hlen, houter, hinner⟩ :=
      addLoop_spec h.grid g.grid 0 (List.replicate (g.width * g.height) 0)
        (by simp [hgl]) (by simp [hgl, hhl])
    refine ⟨⟨g.width, g.height, res⟩, ?_, rfl, rfl, ?_⟩
    · unfold Horton.Grid.addOp
      rw [if_pos ⟨hw, hh⟩, hres]
      rfl
    · intro x y a b hga hhb
      rw [Horton.Grid.getCoordinate_ok_iff] at hga hhb ⊢
      obtain ⟨hval, hga'⟩ := hga
      obtain ⟨hvalh, hhb'⟩ := hhb
      obtain ⟨hx0, hxw, hy0, hyh⟩ := (Horton.Grid.isValid_iff g x y).mp hval
      have hidxlt : (y * (g.width : Int) + x).toNat < g.grid.length := by
        rw [hgwf, Nat.mul_comm]
        exact linIdx_toNat_lt hx0 hxw hy0 hyh
      have hhb2 : h.grid[(y * (g.width : Int) + x).toNat]? = some b := by
        rw [hw]
        exact hhb'
      refine ⟨hval, ?_⟩
      show res[(y * (g.width : Int) + x).toNat]? = some (a + b)
      exact hinner _ a b (by omega) (by simpa using hidxlt) (by simpa using hga') hhb2
  · intro hne
    unfold Horton.Grid.addOp
    rw [if_neg (by tauto)]

/-- C8 witness: `[1,2,3,4] + [10,20,30,40]` on 2×2 grids, and a 2×2 grid
added to a 3×2 grid fails the dimension assertion. -/
theorem c8_add_componentwise_witness :
    (∃ r, Horton.Grid.addOp a22 b22 = .ok r ∧ r.width = a22.width ∧ r.height = a22.height ∧
      ∀ x y a b, Horton.Grid.getCoordinate a22 x y = .ok a →
        Horton.Grid.getCoordinate b22 x y = .ok b →
        Horton.Grid.getCoordinate r x y = .ok (a + b)) ∧
    Horton.Grid.addOp a22 hgArr = .error .assertionError :=
  ⟨(c8_add_componentwise a22 b22).1 rfl rfl (by decide) (by decide),
   (c8_add_componentwise a22 hgArr).2 (by decide)⟩

/-- The rule block of `step` only ever writes 0 or 1. -/
theorem Conway.lifeRule_cases (cell ns : Int) :
    Conway.lifeRule cell ns = 0 ∨ Conway.lifeRule cell ns = 1 := by
  unfold Conway.lifeRule
  split_ifs <;> simp

/-- Membership in the row-major coordinate enumeration. -/
theorem Conway.mem_coordList (g : Conway.Grid) (c : Conway.Coordinate) :
    c ∈ g.coordList ↔
      ∃ x : Nat, x < g.width ∧ ∃ y : Nat, y < g.height ∧ c = ⟨(x : Int), (y : Int)⟩ := by
  unfold Conway.Grid.coordList
  constructor
  · intro hc
    rw [List.mem_flatMap] at hc
    obtain ⟨y, hy, hc⟩ := hc
    rw [List.mem_map] at hc
    obtain ⟨x, hx, rfl⟩ := hc
    exact ⟨x, List.mem_range.mp hx, y, List.mem_range.mp hy, rfl⟩
  · rintro ⟨x, hx, y, hy, rfl⟩
    rw [List.mem_flatMap]
    exact ⟨y, List.mem_range.mpr hy, List.mem_map.mpr ⟨x, List.mem_range.mpr hx, rfl⟩⟩

/-- Every coordinate yielded by `coordinates(world)` is in range. -/
theorem Conway.coordList_bounds (g : Conway.Grid) :
    ∀ c ∈ g.coordList,
      0 ≤ c.x ∧ c.x < (g.width : Int) ∧ 0 ≤ c.y ∧ c.y < (g.height : Int) := by
  intro c hc
  obtain ⟨x, hx, y, hy, rfl⟩ := (Conway.mem_coordList g c).mp hc
  refine ⟨?_, ?_, ?_, ?_⟩
  · show (0 : Int) ≤ ((x : Nat) : Int)
    positivity
  · show ((x : Nat) : Int) < ((g.width : Nat) : Int)
    exact_mod_cast hx
  · show (0 : Int) ≤ ((y : Nat) : Int)
    positivity
  · show ((y : Nat) : Int) < ((g.height : Nat) : Int)
    exact_mod_cast hy

/-- On a square grid, every storage slot is hit by some enumerated
coordinate under the `y*height+x` write addressing. -/
theorem Conway.coordList_covers (g : Conway.Grid) (hsq : g.width = g.height) (j : Nat)
    (hj : j < g.width * g.height) :
    ∃ c ∈ g.coordList, (c.y * (g.height : Int) + c.x).toNat = j := by
  have hw0 : 0 < g.width := by
    rcases Nat.eq_zero_or_pos g.width with h0 | h0
    · rw [h0] at hj
      simp at hj
    · exact h0
  refine ⟨⟨((j % g.width : Nat) : Int), ((j / g.width : Nat) : Int)⟩, ?_, ?_⟩
  · exact (Conway.mem_coordList g _).mpr
      ⟨j % g.width, Nat.mod_lt _ hw0, j / g.width,
        (Nat.div_lt_iff_lt_mul hw0).mpr (by rw [Nat.mul_comm]; exact hj), rfl⟩
  · show ((((j / g.width : Nat) : Int)) * (g.height : Int) + ((j % g.width : Nat) : Int)).toNat = j
    rw [← hsq]
    exact divMod_toNat j g.width

/-- The loop invariant of `step` on a well-formed square world: the
traversal never fails, preserves dimensions and length, and every
position is either untouched (no traversed coordinate maps to it) or
holds 0 or 1. -/
theorem Conway.stepGo_spec (world : Conway.Grid) (hwf : world.wf)
    (hsq : world.width = world.height) :
    ∀ (cs : List Conway.Coordinate) (acc : Conway.Grid),
      acc.width = world.width → acc.height = world.height →
      acc.grid.length = world.grid.length →
      (∀ c ∈ cs,
        0 ≤ c.x ∧ c.x < (world.width : Int) ∧ 0 ≤ c.y ∧ c.y < (world.height : Int)) →
      ∃ res, Conway.stepGo world cs acc = some res ∧ res.width = acc.width ∧
        res.height = acc.height ∧ res.grid.length = acc.grid.length ∧
        ∀ j, j < res.grid.length →
          (res.grid[j]? = acc.grid[j]? ∧
            ∀ c ∈ cs, (c.y * (world.height : Int) + c.x).toNat ≠ j) ∨
          (res.grid[j]? = some 0 ∨ res.grid[j]? = some 1) := by
  intro cs
  induction cs with
  | nil =>
    intro acc _ _ _ _
    exact ⟨acc, rfl, rfl, rfl, rfl, fun j _ => Or.inl ⟨rfl, by simp⟩⟩
  | cons c cs ih =>
    intro acc haw hah hal hb
    have hwl : world.grid.length = world.width * world.height := hwf
    obtain ⟨hx0, hxw, hy0, hyh⟩ := hb c (by simp)
    have hbs : ∀ c' ∈ cs,
        0 ≤ c'.x ∧ c'.x < (world.width : Int) ∧ 0 ≤ c'.y ∧ c'.y < (world.height : Int) :=
      fun c' hc' => hb c' (by simp [hc'])
    have hcast : (world.width : Int) = (world.height : Int) := by exact_mod_cast hsq
    have hval : world.isValidLocation c.x c.y = true :=
      (Conway.Grid.validLocation_iff world c.x c.y).mpr ⟨hx0, hxw, hy0, hyh⟩
    have hidxlt : (c.y * (world.height : Int) + c.x).toNat < world.grid.length := by
      rw [hwl, hsq]
      exact linIdx_toNat_lt hx0 (hcast ▸ hxw) hy0 hyh
    have hcell : world.getItem c.x c.y
        = some (world.grid[(c.y * (world.height : Int) + c.x).toNat]) := by
      simp only [Conway.Grid.getItem, hval, if_true]
      exact List.getElem?_eq_getElem hidxlt
    have hpos : 0 < world.width := by
      have h0 : (0 : Int) < (world.width : Int) := lt_of_le_of_lt hx0 hxw
      exact_mod_cast h0
    obtain ⟨vs, hvs, _, _⟩ :=
      Conway.lookupAll_some world hwf hsq hpos (Conway.neighbourOffsets c)
    have hns : Conway.neighbours world c = some vs.sum := by
      unfold Conway.neighbours
      rw [hvs]
      rfl
    have hvalacc : acc.isValidLocation c.x c.y = true := by
      rw [Conway.Grid.validLocation_iff, haw, hah]
      exact ⟨hx0, hxw, hy0, hyh⟩
    have hidxacc : (c.y * (world.height : Int) + c.x).toNat < acc.grid.length := by
      rw [hal]
      exact hidxlt
    have hidxeq : (c.y * (acc.height : Int) + c.x).toNat
        = (c.y * (world.height : Int) + c.x).toNat := by rw [hah]
    have hset : acc.setItem c.x c.y
          (Conway.lifeRule (world.grid[(c.y * (world.height : Int) + c.x).toNat]) vs.sum)
        = some ⟨acc.width, acc.height,
            acc.grid.set ((c.y * (world.height : Int) + c.x).toNat)
              (Conway.lifeRule
                (world.grid[(c.y * (world.height : Int) + c.x).toNat]) vs.sum)⟩ := by
      simp only [Conway.Grid.setItem, hvalacc, if_true]
      rw [hidxeq, if_pos hidxacc]
    obtain ⟨res, hres, h1, h2, h3, hprop⟩ :=
      ih ⟨acc.width, acc.height,
            acc.grid.set ((c.y * (world.height : Int) + c.x).toNat)
              (Conway.lifeRule
                (world.grid[(c.y * (world.height : Int) + c.x).toNat]) vs.sum)⟩
        haw hah (by simp [hal]) hbs
    refine ⟨res, ?_, by rw [h1], by rw [h2], by rw [h3]; simp, ?_⟩
    · show Conway.stepGo world (c :: cs) acc = some res
      simp only [Conway.stepGo, hcell, hns, hset, Option.bind_eq_bind, Option.some_bind]
      exact hres
    · intro j hj
      have hj' : j < acc.grid.length := by
        have hj3 : j < (acc.grid.set ((c.y * (world.height : Int) + c.x).toNat)
            (Conway.lifeRule
              (world.grid[(c.y * (world.height : Int) + c.x).toNat]) vs.sum)).length := by
          rw [← h3]
          exact hj
        simpa using hj3
      rcases hprop j hj with ⟨hpres, hnt⟩ | h01
      · by_cases hji : (c.y * (world.height : Int) + c.x).toNat = j
        · refine Or.inr ?_
          have hsome : res.grid[j]? = some (Conway.lifeRule
              (world.grid[(c.y * (world.height : Int) + c.x).toNat]) vs.sum) := by
            rw [hpres]
            show (acc.grid.set _ _)[j]? = _
            rw [← hji]
            exact List.getElem?_set_self hidxacc
          rcases Conway.lifeRule_cases
              (world.grid[(c.y * (world.height : Int) + c.x).toNat]) vs.sum with h | h
          · left
            rw [hsome, h]
          · right
            rw [hsome, h]
        · refine Or.inl ⟨?_, ?_⟩
          · rw [hpres]
            show (acc.grid.set _ _)[j]? = _
            exact List.getElem?_set_ne hji
          · intro c' hc'
            rcases List.mem_cons.mp hc' with h | h
            · rw [h]
              exact hji
            · exact hnt c' h
      · exact Or.inr h01

/-- C10, amended: for every well-formed SQUARE input grid, `step`
succeeds and returns a grid of the same width and height whose every
cell value is 0 or 1, even when the input contains other values; the
input is never mutated (the loop writes only into the fresh copy).  The
counterexample shows the unrestricted claim fails on non-square grids,
where the `y*height+x` addressing leaves storage slots unwritten. -/
theorem c10_step_amended (g : Conway.Grid) (hsq : g.width = g.height) (hwf : g.wf) :
    ∃ r, Conway.step g = some r ∧ r.width = g.width ∧ r.height = g.height ∧
      ∀ v ∈ r.grid, v = 0 ∨ v = 1 := by
  obtain ⟨res, hres, h1, h2, h3, hprop⟩ :=
    Conway.stepGo_spec g hwf hsq g.coordList (Conway.Grid.copy g) rfl rfl rfl
      (Conway.coordList_bounds g)
  refine ⟨res, hres, h1, h2, ?_⟩
  intro v hv
  obtain ⟨j, hj⟩ := List.mem_iff_getElem?.mp hv
  have hjlt : j < res.grid.length := by
    by_contra hge
    rw [List.getElem?_eq_none (by omega)] at hj
    exact Option.noConfusion hj
  rcases hprop j hjlt with ⟨_, hnt⟩ | h01
  · exfalso
    have hjg : j < g.grid.length := by
      have h4 : j < (Conway.Grid.copy g).grid.length := by
        rw [← h3]
        exact hjlt
      exact h4
    have hjwh : j < g.width * g.height := by
      have hgl : g.grid.length = g.width * g.height := hwf
      omega
    obtain ⟨c, hc, hcj⟩ := Conway.coordList_covers g hsq j hjwh
    exact hnt c hc hcj
  · rcases h01 with h0 | h0
    · left
      rw [h0] at hj
      exact (Option.some.inj hj).symm
    · right
      rw [h0] at hj
      exact (Option.some.inj hj).symm

/-- C10 witness: the blinker grid is square and well-formed. -/
theorem c10_step_amended_witness :
    ∃ r, Conway.step blinkerH = some r ∧ r.width = blinkerH.width ∧
      r.height = blinkerH.height ∧ ∀ v ∈ r.grid, v = 0 ∨ v = 1 :=
  c10_step_amended blinkerH rfl (by decide)
